import Mathlib

/-!
# ncneofetch (src/fetch/main.c): layout arithmetic and frame sequencing

A shallow embedding of the rendering half of `src/fetch/main.c`:
`display`, `drawpalette`, `infoplane` and the driver `ncneofetch`.

* C `int` values are modelled as `Int`; C division `/` is `Int.tdiv`
  (truncation toward zero).
* Calls into the notcurses library are not part of this file.  Each run
  makes every such call at most once per call site, so the value a call
  returns in the run is a field of `Env`, and the calls themselves are
  recorded, in program order, in a `List Call`.
* C pointers are addresses (`Ptr`), the null pointer being address `0`.
* Arithmetic is over unbounded integers.  In `drawpalette` no `int`
  expression can overflow once `dimx >= 64`; in `display` the results speak
  of runs in which `y + (scaley - 1)` does not overflow (signed overflow is
  undefined in C).
* A `for` loop is a recursive function on an iteration bound that the caller
  sets to the distance between the loop's bounds; `drawpalette_fuel` shows the
  bound never cuts a loop short.
-/

namespace Fetch

/-! ## Data model -/

/-- C pointer value: an address; the null pointer is address `0`. -/
abbrev Ptr := Nat

/-- The null pointer constant. In C, `NULL` and the integer constant `0`
    converted to a pointer type are the same value. -/
def NULL : Ptr := 0

/-- `struct distro_info`: `logofile` is a nullable `const char*`. -/
structure distro_info where
  name : String
  logofile : Option String
deriving DecidableEq, Repr

/-- `struct fetched_info`, restricted to the fields that steer control flow
    (`distro`) or that `get_kernel` fills; the remaining strings are only ever
    passed on as `printf` arguments. -/
structure fetched_info where
  distro : Option distro_info
  kernel : Option String
deriving DecidableEq, Repr

/-- The static table `distros[]`, without its `{NULL, NULL}` terminator. -/
def distros : List distro_info :=
  [ ⟨"Debian", some "/usr/share/desktop-base/debian-logos/logo-text-256.png"⟩,
    ⟨"Fedora", some "/usr/share/pixmaps/fedora-logo.png"⟩ ]

/-- The fields `y` and `x` of `struct ncvisual_options` (the placement of the
    blit); `scaling`, `blitter` and `n` are constants in `display`. -/
structure ncvisual_options where
  y : Int
  x : Int
deriving DecidableEq, Repr

/-- Horizontal alignment argument of `ncplane_printf_aligned`. -/
inductive ncalign_e where
  | NCALIGN_LEFT
  | NCALIGN_CENTER
  | NCALIGN_RIGHT
deriving DecidableEq, Repr

/-- One recorded event of a run: entry into one of the four stages of
    `ncneofetch`, or a call into the notcurses library with the arguments that
    matter for layout.  The calls made by `infoplane` are recorded together
    with the value they returned (`ret`), whether or not `infoplane` looks at
    it. -/
inductive Call where
  | display
  | ncvisual_from_file (file : String)
  | notcurses_stddim_yx
  | ncvisual_geom
  | ncvisual_render (y x : Int)
  | ncvisual_destroy
  | infoplane
  | ncplane_aligned (rows cols yoff : Int) (ret : Ptr)
  | ncplane_printf_aligned (row : Int) (align : ncalign_e) (ret : Int)
  | cells_rounded_box (ret : Int)
  | ncplane_perimeter (ret : Int)
  | ncplane_hline_interp (len : Int) (ret : Int)
  | ncplane_set_base (ret : Int)
  | drawpalette
  | notcurses_palette_size
  | ncplane_putc_yx (y x idx : Int)
  | notcurses_render
deriving DecidableEq, Repr

/-- What each library call made by `infoplane` returns in this run. -/
structure infoplane_calls where
  ncplane_aligned : Ptr
  printf_row1_left : Int
  printf_row1_right : Int
  printf_row2_left : Int
  printf_row2_right : Int
  cells_rounded_box : Int
  ncplane_perimeter : Int
  hline_interp_left : Int
  hline_interp_right : Int
  printf_row0 : Int
  ncplane_set_base : Int
deriving DecidableEq, Repr

/-- Everything a run of `ncneofetch` reads from outside `main.c`. -/
structure Env where
  /-- `uts.sysname` after `uname(2)`, or `none` when `uname` fails -/
  uname : Option String
  /-- the distributor id printed by `lsb_release -i`, or `none` on failure -/
  lsb_release_i : Option String
  /-- whether `__linux__` is defined (the `sysinfo` block of `infoplane`) -/
  linux : Bool
  /-- rows of the standard plane (`notcurses_stddim_yx`) -/
  dimy : Int
  /-- columns of the standard plane (`notcurses_stddim_yx`) -/
  dimx : Int
  /-- what `ncvisual_from_file` returns: `NULL` when the file cannot be decoded -/
  ncvisual_from_file : Ptr
  /-- the four outputs of `ncvisual_geom`: pixel rows, pixel columns, and
      the blitter scale on each axis -/
  geom_y : Int
  geom_x : Int
  geom_scaley : Int
  geom_scalex : Int
  /-- what `ncvisual_render` returns: `NULL` when the blit fails -/
  ncvisual_render : Ptr
  /-- the return values of the library calls of `infoplane` -/
  ip : infoplane_calls
  /-- what `notcurses_palette_size` returns -/
  palette_size : Int
  /-- what `notcurses_render` returns -/
  notcurses_render : Int
deriving DecidableEq, Repr

/-! ## `enum ncneo_kernel_e` and the fact gathering that selects the distro -/

def NCNEO_LINUX : Int := 0
def NCNEO_FREEBSD : Int := 1
def NCNEO_UNKNOWN : Int := 2

/-- `get_kernel` (lines 154-170): `-1` when `uname` fails, otherwise the
    kernel enumerator, storing the system name in `fi->kernel`. -/
def get_kernel (uname : Option String) (fi : fetched_info) : Int × fetched_info :=
  match uname with
  | none => (-1, fi)
  | some sysname =>
    let fi := { fi with kernel := some sysname }
    if sysname = "Linux" then (NCNEO_LINUX, fi)
    else if sysname = "FreeBSD" then (NCNEO_FREEBSD, fi)
    else (NCNEO_UNKNOWN, fi)

/-- `getdistro` (lines 89-106): the first entry of `distros` whose name is the
    distributor id, `NULL` when the query fails or no entry matches. -/
def getdistro (lsb_release_i : Option String) : Option distro_info :=
  match lsb_release_i with
  | none => none
  | some buf => distros.find? (fun dinfo => dinfo.name = buf)

/-- `linux_ncneofetch` (lines 136-146): the result of `getdistro`; the other
    statements only fill strings of `fi`. -/
def linux_ncneofetch (env : Env) : Option distro_info :=
  match getdistro env.lsb_release_i with
  | none => none
  | some dinfo => some dinfo

/-- The static record `fbsd` of `freebsd_ncneofetch` (lines 206-209). -/
def fbsd : distro_info := ⟨"FreeBSD", none⟩

/-- `freebsd_ncneofetch` (lines 204-213). -/
def freebsd_ncneofetch : Option distro_info := some fbsd

/-! ## `display` -/

/-- Lines 182-194 of `display`: `vopts` starts zero-initialised in `y` and `x`
    (designated initialiser), then each axis is set when its guard holds.
    `y`, `x` are the visual's pixel size, `scaley`, `scalex` the blitter scale. -/
def display_vopts (dimy dimx y x scaley scalex : Int) : ncvisual_options :=
  let vopts : ncvisual_options := ⟨0, 0⟩
  let vopts :=
    if y.tdiv scaley < dimy then
      { vopts with y := (dimy - (y + (scaley - 1)).tdiv scaley).tdiv 2 }
    else vopts
  let vopts :=
    if x.tdiv scalex < dimx then
      { vopts with x := (dimx - (x + (scalex - 1)).tdiv scalex).tdiv 2 }
    else vopts
  vopts

/-- `display` (lines 172-202).  Returns a `struct ncplane*`: `NULL` on the two
    error paths and the constant `0` at the end. -/
def display (env : Env) (dinfo : distro_info) (tr : List Call) : Ptr × List Call :=
  match dinfo.logofile with
  | some file =>
    let tr := tr ++ [Call.ncvisual_from_file file]
    if env.ncvisual_from_file = NULL then (NULL, tr)
    else
      let tr := tr ++ [Call.notcurses_stddim_yx, Call.ncvisual_geom]
      let vopts := display_vopts env.dimy env.dimx env.geom_y env.geom_x
                     env.geom_scaley env.geom_scalex
      let tr := tr ++ [Call.ncvisual_render vopts.y vopts.x]
      if env.ncvisual_render = NULL then (NULL, tr ++ [Call.ncvisual_destroy])
      else (0, tr ++ [Call.ncvisual_destroy])
  | none => (0, tr)

/-! ## `drawpalette` -/

/-- `const int yoff = 2;` (line 228). -/
def yoff : Int := 2

/-- The inner `for` loop of `drawpalette` (lines 230-237) on row `y`, started
    at column `x`.  `putc s y x idx` is the effect on the surface `s` of
    `cell_set_bg_palindex(&c, idx); ncplane_putc_yx(stdn, y, x, &c)`.  The
    first argument bounds the number of iterations. -/
def drawpalette_row {S : Type} (putc : S → Int → Int → Int → S) (psize dimx y : Int) :
    Nat → Int → S → S
  | 0, _, s => s
  | n + 1, x, s =>
    if x < dimx.tdiv 2 + 32 then
      let truex := x - (dimx - 64).tdiv 2
      if (y - yoff) * 64 + truex ≥ psize then s
      else drawpalette_row putc psize dimx y n (x + 1) (putc s y x ((y - yoff) * 64 + truex))
    else s

/-- The outer `for` loop of `drawpalette` (lines 229-238), started at row `y`.
    Each row runs the inner loop from column `(dimx - 64) / 2`, with an
    iteration bound equal to the distance between the inner loop's bounds. -/
def drawpalette_rows {S : Type} (putc : S → Int → Int → Int → S) (psize dimx : Int) :
    Nat → Int → S → S
  | 0, _, s => s
  | n + 1, y, s =>
    if y < yoff + psize.tdiv 64 then
      drawpalette_rows putc psize dimx n (y + 1)
        (drawpalette_row putc psize dimx y
          ((dimx.tdiv 2 + 32) - (dimx - 64).tdiv 2).toNat ((dimx - 64).tdiv 2) s)
    else s

/-- `drawpalette` (lines 215-240) on a surface `s`, given what
    `notcurses_palette_size` and `notcurses_stddim_yx` report.  The outer loop
    runs from `yoff` with an iteration bound equal to `psize / 64`. -/
def drawpalette {S : Type} (putc : S → Int → Int → Int → S) (palette_size dimx : Int)
    (s : S) : Int × S :=
  let psize := if palette_size > 256 then 256 else palette_size
  if dimx < 64 then (-1, s)
  else (0, drawpalette_rows putc psize dimx (psize.tdiv 64).toNat yoff s)

/-- One swatch written by `drawpalette`: the cell and its background palette
    index. -/
structure Swatch where
  y : Int
  x : Int
  idx : Int
deriving DecidableEq, Repr

/-- The surface seen as the list of swatches written so far, oldest first. -/
def logSwatch (s : List Swatch) (y x idx : Int) : List Swatch := s ++ [⟨y, x, idx⟩]

/-- The swatches `drawpalette` writes, in order. -/
def swatches (palette_size dimx : Int) : List Swatch :=
  (drawpalette logSwatch palette_size dimx []).2

/-- The surface seen as the list of calls made so far: a swatch write is the
    call `ncplane_putc_yx` with its cell's palette index. -/
def logCall (tr : List Call) (y x idx : Int) : List Call :=
  tr ++ [Call.ncplane_putc_yx y x idx]

/-! ## `infoplane` -/

/-- `infoplane` (lines 242-304).  Only four results are tested: the plane from
    `ncplane_aligned`, `cells_rounded_box`, `ncplane_perimeter`, and the
    `ncplane_printf_aligned` on row 0.  The two prints on row 2 exist only
    under `__linux__`. -/
def infoplane (env : Env) (tr : List Call) : Int × List Call :=
  let ip := env.ip
  let planeheight : Int := 8
  let planewidth : Int := 60
  let tr := tr ++ [Call.ncplane_aligned planeheight planewidth
                     (env.dimy - (planeheight + 1)) ip.ncplane_aligned]
  if ip.ncplane_aligned = NULL then (-1, tr)
  else
    let tr := tr ++ [Call.ncplane_printf_aligned 1 .NCALIGN_LEFT ip.printf_row1_left,
                     Call.ncplane_printf_aligned 1 .NCALIGN_RIGHT ip.printf_row1_right]
    let tr :=
      if env.linux then
        tr ++ [Call.ncplane_printf_aligned 2 .NCALIGN_LEFT ip.printf_row2_left,
               Call.ncplane_printf_aligned 2 .NCALIGN_RIGHT ip.printf_row2_right]
      else tr
    let tr := tr ++ [Call.cells_rounded_box ip.cells_rounded_box]
    if ip.cells_rounded_box ≠ 0 then (-1, tr)
    else
      let tr := tr ++ [Call.ncplane_perimeter ip.ncplane_perimeter]
      if ip.ncplane_perimeter ≠ 0 then (-1, tr)
      else
        let tr := tr ++ [Call.ncplane_hline_interp (planewidth.tdiv 2) ip.hline_interp_left,
                         Call.ncplane_hline_interp (planewidth.tdiv 2) ip.hline_interp_right]
        let tr := tr ++ [Call.ncplane_printf_aligned 0 .NCALIGN_CENTER ip.printf_row0]
        if ip.printf_row0 < 0 then (-1, tr)
        else (0, tr ++ [Call.ncplane_set_base ip.ncplane_set_base])

/-! ## `ncneofetch` -/

/-- Lines 308-319 of `ncneofetch`: the value of `fi.distro` after the
    `switch`.  `fi` starts zeroed; a `kern` outside the three cases (the `-1`
    of a failed `uname`) leaves it `NULL`. -/
def ncneofetch_distro (env : Env) : Option distro_info :=
  let fi : fetched_info := ⟨none, none⟩
  let (kern, fi) := get_kernel env.uname fi
  let fi :=
    if kern = NCNEO_LINUX then { fi with distro := linux_ncneofetch env }
    else if kern = NCNEO_FREEBSD then { fi with distro := freebsd_ncneofetch }
    else fi
  fi.distro

/-- `ncneofetch` (lines 306-336): the return value and the calls made, in
    order.  Entry into each stage is recorded at its call site. -/
def ncneofetch (env : Env) : Int × List Call :=
  match ncneofetch_distro env with
  | none => (-1, [])
  | some distro =>
    let d := display env distro [Call.display]
    if d.1 ≠ NULL then (-1, d.2)
    else
      let i := infoplane env (d.2 ++ [Call.infoplane])
      if i.1 ≠ 0 then (-1, i.2)
      else
        let p := drawpalette logCall env.palette_size env.dimx
                   (i.2 ++ [Call.drawpalette, Call.notcurses_palette_size,
                            Call.notcurses_stddim_yx])
        if p.1 ≠ 0 then (-1, p.2)
        else
          let tr := p.2 ++ [Call.notcurses_render]
          if env.notcurses_render ≠ 0 then (-1, tr)
          else (0, tr)

/-- The entries of a call list that are stage entries of `ncneofetch` (the
    flush `notcurses_render` being the fourth stage). -/
def stages (tr : List Call) : List Call :=
  tr.filter (fun c => c = Call.display ∨ c = Call.infoplane ∨ c = Call.drawpalette
                        ∨ c = Call.notcurses_render)

/-! ## Concrete runs -/

/-- An `infoplane_calls` in which every library call succeeds. -/
def ip_ok : infoplane_calls :=
  { ncplane_aligned := 1, printf_row1_left := 0, printf_row1_right := 0,
    printf_row2_left := 0, printf_row2_right := 0, cells_rounded_box := 0,
    ncplane_perimeter := 0, hline_interp_left := 0, hline_interp_right := 0,
    printf_row0 := 0, ncplane_set_base := 0 }

/-- An `infoplane_calls` in which the four calls whose result `infoplane`
    tests succeed and the seven others fail. -/
def ip_unchecked_fail : infoplane_calls :=
  { ncplane_aligned := 1, printf_row1_left := -1, printf_row1_right := -1,
    printf_row2_left := -1, printf_row2_right := -1, cells_rounded_box := 0,
    ncplane_perimeter := 0, hline_interp_left := -1, hline_interp_right := -1,
    printf_row0 := 0, ncplane_set_base := -1 }

/-- A Debian host on a 120x40 terminal with 256 colours, a 512x512 px logo at
    blitter scale 16 (rows) x 8 (columns), where every library call succeeds. -/
def env_ok : Env :=
  { uname := some "Linux", lsb_release_i := some "Debian", linux := true,
    dimy := 40, dimx := 120, ncvisual_from_file := 1,
    geom_y := 512, geom_x := 512, geom_scaley := 16, geom_scalex := 8,
    ncvisual_render := 1, ip := ip_ok, palette_size := 256, notcurses_render := 0 }

/-- The run `env_ok` on a 50x24 terminal. -/
def env_narrow : Env := { env_ok with dimy := 24, dimx := 50 }

/-- The run `env_ok` when the Debian logo file cannot be decoded. -/
def env_decode_fails : Env := { env_ok with ncvisual_from_file := NULL }

/-- The run `env_ok` when the blit of the decoded logo fails. -/
def env_blit_fails : Env := { env_ok with ncvisual_render := NULL }

/-- The run `env_ok` when the row-1 left print of `infoplane` fails and nothing
    else does. -/
def env_print_fails : Env := { env_ok with ip := { ip_ok with printf_row1_left := -1 } }

/-- The first entry of `distros`. -/
def debian : distro_info :=
  ⟨"Debian", some "/usr/share/desktop-base/debian-logos/logo-text-256.png"⟩

/-! ## The specification's geometry, in its own words -/

/-- Spec, section 4.1: image pixels to cells, "dividing by the blitter's
    per-cell pixel resolution, rounding up (ceiling)". -/
def spec_cells (p s : Int) : Int := ⌈(p : ℚ) / (s : ℚ)⌉

/-- Spec, section 4.1: "if imageCellDim < terminalDim,
    offset = (terminalDim - imageCellDim) / 2 using integer (floor) division;
    else offset = 0". -/
def spec_offset (imageCellDim terminalDim : Int) : Int :=
  if imageCellDim < terminalDim then ⌊((terminalDim - imageCellDim : Int) : ℚ) / 2⌋ else 0

set_option maxRecDepth 100000

/-! ## Arithmetic of `display` -/

/-- For a non-negative dividend and a positive divisor, the rounded-up
    quotient `(p + (s - 1)) / s` of `display` is the ceiling of `p / s`. -/
theorem ceil_quot (p s : Int) (hp : 0 ≤ p) (hs : 1 ≤ s) :
    (p + (s - 1)).tdiv s = spec_cells p s := by
  rw [Int.tdiv_eq_ediv (by omega) (by omega)]
  unfold spec_cells
  symm
  rw [Int.ceil_eq_iff]
  have hs0 : (0 : ℚ) < (s : ℚ) := by exact_mod_cast (show (0 : Int) < s by omega)
  have h1 := Int.ediv_add_emod (p + (s - 1)) s
  have h2 := Int.emod_nonneg (p + (s - 1)) (show s ≠ 0 by omega)
  have h3 := Int.emod_lt_of_pos (p + (s - 1)) (show 0 < s by omega)
  constructor
  · rw [lt_div_iff₀ hs0]
    have : ((p + (s - 1)) / s - 1) * s < p := by nlinarith
    exact_mod_cast this
  · rw [div_le_iff₀ hs0]
    have : p ≤ ((p + (s - 1)) / s) * s := by nlinarith
    exact_mod_cast this

/-- Floor of an integer halved, over the rationals, is integer floor division. -/
theorem floor_half (n : Int) : ⌊((n : Int) : ℚ) / 2⌋ = n / 2 := by
  have h := Rat.floor_intCast_div_natCast n 2
  simpa using h

/-- The truncated quotient is at most the rounded-up one, which exceeds it by
    at most one. -/
theorem quot_le_ceil_quot (p s : Int) (hp : 0 ≤ p) (hs : 1 ≤ s) :
    p.tdiv s ≤ (p + (s - 1)).tdiv s ∧ (p + (s - 1)).tdiv s ≤ p.tdiv s + 1 := by
  rw [Int.tdiv_eq_ediv hp (by omega), Int.tdiv_eq_ediv (by omega) (by omega)]
  have hs0 : 0 < s := by omega
  constructor
  · exact Int.ediv_le_ediv hs0 (by omega)
  · have h : (p + s) / s = p / s + 1 := by
      rw [Int.add_ediv_of_dvd_right (dvd_refl s), Int.ediv_self (by omega)]
    rw [← h]
    exact Int.ediv_le_ediv hs0 (by omega)

/-- One axis of `display_vopts`: the code's guarded assignment yields the
    specification's offset. -/
theorem axis_offset (p s d : Int) (hp : 0 ≤ p) (hs : 1 ≤ s) :
    (if p.tdiv s < d then (d - (p + (s - 1)).tdiv s).tdiv 2 else 0)
      = spec_offset (spec_cells p s) d := by
  have hc := ceil_quot p s hp hs
  obtain ⟨h1, h2⟩ := quot_le_ceil_quot p s hp hs
  rw [← hc]
  unfold spec_offset
  rw [floor_half]
  by_cases hg : p.tdiv s < d
  · rw [if_pos hg, Int.tdiv_eq_ediv (by omega) (by omega)]
    by_cases hlt : (p + (s - 1)).tdiv s < d
    · rw [if_pos hlt]
    · rw [if_neg hlt]
      have : d - (p + (s - 1)).tdiv s = 0 := by omega
      rw [this]; rfl
  · rw [if_neg hg, if_neg (by omega)]

/-! ## Call lists of the stages -/

/-- Stage entries of a concatenation. -/
theorem stages_append (a b : List Call) : stages (a ++ b) = stages a ++ stages b := by
  simp [stages]

/-- A stage entry is in a call list exactly when it is among its stage
    entries. -/
theorem mem_stages (c : Call) (tr : List Call)
    (hc : c = Call.display ∨ c = Call.infoplane ∨ c = Call.drawpalette
            ∨ c = Call.notcurses_render) :
    c ∈ tr ↔ c ∈ stages tr := by
  simp [stages, hc]

/-- On every path `display` returns the null pointer. -/
theorem display_fst (env : Env) (dinfo : distro_info) (tr : List Call) :
    (display env dinfo tr).1 = NULL := by
  unfold display
  split
  · split_ifs <;> rfl
  · rfl

/-- The calls made by `display` are no stage entries. -/
theorem display_stages (env : Env) (dinfo : distro_info) (tr : List Call) :
    stages (display env dinfo tr).2 = stages tr := by
  unfold display
  split
  · split_ifs <;> simp [stages_append] <;> simp [stages]
  · rfl

/-- The calls made by `infoplane` are no stage entries. -/
theorem infoplane_stages (env : Env) (tr : List Call) :
    stages (infoplane env tr).2 = stages tr := by
  unfold infoplane
  simp only
  split_ifs <;> simp [stages_append] <;> simp [stages]

/-- The result of `infoplane` does not depend on the calls made before it. -/
theorem infoplane_fst (env : Env) (tr : List Call) :
    (infoplane env tr).1 = (infoplane env []).1 := by
  unfold infoplane
  simp only
  split_ifs <;> rfl

/-- The inner loop only appends to the list of swatches. -/
theorem row_append (psize dimx y : Int) (n : Nat) (x : Int) (s : List Swatch) :
    drawpalette_row logSwatch psize dimx y n x s
      = s ++ drawpalette_row logSwatch psize dimx y n x [] := by
  induction n generalizing x s with
  | zero => simp [drawpalette_row]
  | succ n ih =>
    simp only [drawpalette_row]
    split_ifs
    · simp
    · rw [ih (x + 1) (logSwatch s _ _ _), ih (x + 1) (logSwatch [] _ _ _)]
      simp [logSwatch]
    · simp

/-- Invariant of the inner loop: a swatch it adds is on row `y`, between the
    start column and the upper bound, and carries the index computed from its
    cell, which is below `psize`. -/
theorem row_mem (psize dimx y : Int) (n : Nat) (x : Int) (s : List Swatch) (w : Swatch)
    (hw : w ∈ drawpalette_row logSwatch psize dimx y n x s) :
    w ∈ s ∨ (w.y = y ∧ x ≤ w.x ∧ w.x < dimx.tdiv 2 + 32
              ∧ w.idx = (y - yoff) * 64 + (w.x - (dimx - 64).tdiv 2) ∧ w.idx < psize) := by
  induction n generalizing x s with
  | zero => left; simpa [drawpalette_row] using hw
  | succ n ih =>
    simp only [drawpalette_row] at hw
    split_ifs at hw with h1 h2
    · exact Or.inl hw
    · rcases ih (x + 1) _ hw with h | ⟨a, b, c, d, e⟩
      · simp only [logSwatch, List.mem_append, List.mem_singleton] at h
        rcases h with h | h
        · exact Or.inl h
        · right
          subst h
          refine ⟨rfl, le_refl _, h1, rfl, ?_⟩
          show (y - yoff) * 64 + (x - (dimx - 64).tdiv 2) < psize
          omega
      · right
        exact ⟨a, by omega, c, d, e⟩
    · exact Or.inl hw

/-- Invariant of the outer loop: a swatch it adds lies between the start row
    and the row bound, inside the column bounds, with the index of its cell. -/
theorem rows_mem (psize dimx : Int) (n : Nat) (y : Int) (s : List Swatch) (w : Swatch)
    (hw : w ∈ drawpalette_rows logSwatch psize dimx n y s) :
    w ∈ s ∨ (y ≤ w.y ∧ w.y < yoff + psize.tdiv 64
              ∧ (dimx - 64).tdiv 2 ≤ w.x ∧ w.x < dimx.tdiv 2 + 32
              ∧ w.idx = (w.y - yoff) * 64 + (w.x - (dimx - 64).tdiv 2) ∧ w.idx < psize) := by
  induction n generalizing y s with
  | zero => left; simpa [drawpalette_rows] using hw
  | succ n ih =>
    simp only [drawpalette_rows] at hw
    split_ifs at hw with h1
    · rcases ih (y + 1) _ hw with h | ⟨a, b, c, d, e, f⟩
      · rcases row_mem _ _ _ _ _ _ _ h with h | ⟨a, b, c, d, e⟩
        · exact Or.inl h
        · right
          subst a
          exact ⟨le_refl _, h1, b, c, d, e⟩
      · right
        exact ⟨by omega, b, c, d, e, f⟩
    · exact Or.inl hw

/-- The outer loop only appends to the list of swatches. -/
theorem rows_append (psize dimx : Int) (n : Nat) (y : Int) (s : List Swatch) :
    drawpalette_rows logSwatch psize dimx n y s
      = s ++ drawpalette_rows logSwatch psize dimx n y [] := by
  induction n generalizing y s with
  | zero => simp [drawpalette_rows]
  | succ n ih =>
    simp only [drawpalette_rows]
    split_ifs
    · rw [ih (y + 1) (drawpalette_row _ _ _ _ _ _ s),
          ih (y + 1) (drawpalette_row _ _ _ _ _ _ []), row_append]
      simp
    · simp

/-- On any surface that is a list to which a swatch write appends one entry,
    the inner loop appends the image of the swatches it writes. -/
theorem row_log {α : Type} (putc : List α → Int → Int → Int → List α)
    (f : Int → Int → Int → α) (hputc : ∀ s y x i, putc s y x i = s ++ [f y x i])
    (psize dimx y : Int) (n : Nat) (x : Int) (s : List α) :
    drawpalette_row putc psize dimx y n x s
      = s ++ (drawpalette_row logSwatch psize dimx y n x []).map
                (fun w => f w.y w.x w.idx) := by
  induction n generalizing x s with
  | zero => simp [drawpalette_row]
  | succ n ih =>
    simp only [drawpalette_row]
    split_ifs
    · simp
    · rw [ih, hputc, row_append psize dimx y n (x + 1) (logSwatch [] _ _ _)]
      simp [logSwatch]
    · simp

/-- On any surface that is a list to which a swatch write appends one entry,
    the outer loop appends the image of the swatches it writes. -/
theorem rows_log {α : Type} (putc : List α → Int → Int → Int → List α)
    (f : Int → Int → Int → α) (hputc : ∀ s y x i, putc s y x i = s ++ [f y x i])
    (psize dimx : Int) (n : Nat) (y : Int) (s : List α) :
    drawpalette_rows putc psize dimx n y s
      = s ++ (drawpalette_rows logSwatch psize dimx n y []).map
                (fun w => f w.y w.x w.idx) := by
  induction n generalizing y s with
  | zero => simp [drawpalette_rows]
  | succ n ih =>
    simp only [drawpalette_rows]
    split_ifs
    · rw [ih, row_log putc f hputc,
          rows_append psize dimx n (y + 1) (drawpalette_row logSwatch _ _ _ _ _ [])]
      simp
    · simp

/-- The calls of `drawpalette` are one `ncplane_putc_yx` per swatch, in order. -/
theorem drawpalette_calls (palette_size dimx : Int) (tr : List Call) :
    drawpalette logCall palette_size dimx tr
      = ((drawpalette logSwatch palette_size dimx []).1,
         tr ++ (swatches palette_size dimx).map
                 (fun w => Call.ncplane_putc_yx w.y w.x w.idx)) := by
  unfold swatches drawpalette
  simp only
  split_ifs <;> simp [rows_log logCall Call.ncplane_putc_yx (fun _ _ _ _ => rfl)]

/-- The status of `drawpalette` depends on the terminal width only. -/
theorem drawpalette_fst {S : Type} (putc : S → Int → Int → Int → S)
    (palette_size dimx : Int) (s : S) :
    (drawpalette putc palette_size dimx s).1 = if dimx < 64 then -1 else 0 := by
  unfold drawpalette
  simp only
  split_ifs <;> rfl

/-- The calls made by `drawpalette` are no stage entries. -/
theorem drawpalette_stages (palette_size dimx : Int) (tr : List Call) :
    stages (drawpalette logCall palette_size dimx tr).2 = stages tr := by
  rw [drawpalette_calls]
  simp [stages_append]
  simp [stages]

/-- The possible runs of `ncneofetch`, by stage outcome: the return value and
    the stage entries of the call list. -/
theorem ncneofetch_runs (env : Env) :
    (ncneofetch_distro env = none ∧ ncneofetch env = (-1, []))
    ∨ ((∃ distro, ncneofetch_distro env = some distro)
        ∧ (((infoplane env []).1 ≠ 0 ∧ (ncneofetch env).1 = -1
              ∧ stages (ncneofetch env).2 = [Call.display, Call.infoplane])
          ∨ ((infoplane env []).1 = 0 ∧ env.dimx < 64 ∧ (ncneofetch env).1 = -1
              ∧ stages (ncneofetch env).2
                  = [Call.display, Call.infoplane, Call.drawpalette])
          ∨ ((infoplane env []).1 = 0 ∧ ¬ env.dimx < 64 ∧ env.notcurses_render ≠ 0
              ∧ (ncneofetch env).1 = -1
              ∧ stages (ncneofetch env).2
                  = [Call.display, Call.infoplane, Call.drawpalette, Call.notcurses_render])
          ∨ ((infoplane env []).1 = 0 ∧ ¬ env.dimx < 64 ∧ env.notcurses_render = 0
              ∧ (ncneofetch env).1 = 0
              ∧ stages (ncneofetch env).2
                  = [Call.display, Call.infoplane, Call.drawpalette, Call.notcurses_render]))) := by
  unfold ncneofetch
  cases hd : ncneofetch_distro env with
  | none => left; simp
  | some distro =>
    right
    refine ⟨⟨distro, rfl⟩, ?_⟩
    simp only [display_fst, ne_eq, not_true_eq_false, if_false]
    rw [infoplane_fst env ((display env distro [Call.display]).2 ++ [Call.infoplane])]
    by_cases hi : (infoplane env []).1 = 0
    · simp only [hi, not_true_eq_false, if_false, drawpalette_fst]
      by_cases hx : env.dimx < 64
      · simp [hx, hi, drawpalette_stages, stages_append, infoplane_stages, display_stages]
        simp [stages]
      · by_cases hr : env.notcurses_render = 0
        · simp [hx, hi, hr, drawpalette_stages, stages_append, infoplane_stages, display_stages]
          simp [stages]
        · simp [hx, hi, hr, drawpalette_stages, stages_append, infoplane_stages, display_stages]
          simp [stages]
    · simp [hi, stages_append, infoplane_stages, display_stages]
      simp [stages]

/-! ## The loops of `drawpalette` stop by their own conditions -/

/-- The inner loop gives the same surface for any two iteration bounds that
    are at least the distance to its upper column bound. -/
theorem row_fuel {S : Type} (putc : S → Int → Int → Int → S) (psize dimx y : Int)
    (n m : Nat) (x : Int) (s : S)
    (hn : ((dimx.tdiv 2 + 32) - x).toNat ≤ n) (hm : ((dimx.tdiv 2 + 32) - x).toNat ≤ m) :
    drawpalette_row putc psize dimx y n x s = drawpalette_row putc psize dimx y m x s := by
  induction n generalizing m x s with
  | zero =>
    cases m with
    | zero => rfl
    | succ m =>
      have : ¬ x < dimx.tdiv 2 + 32 := by omega
      simp only [drawpalette_row, if_neg this]
  | succ n ih =>
    cases m with
    | zero =>
      have : ¬ x < dimx.tdiv 2 + 32 := by omega
      simp only [drawpalette_row, if_neg this]
    | succ m =>
      simp only [drawpalette_row]
      split_ifs with h1 h2
      · rfl
      · exact ih m (x + 1) _ (by omega) (by omega)
      · rfl

/-- The outer loop gives the same surface for any two iteration bounds that
    are at least the distance to its upper row bound. -/
theorem rows_fuel {S : Type} (putc : S → Int → Int → Int → S) (psize dimx : Int)
    (n m : Nat) (y : Int) (s : S)
    (hn : ((yoff + psize.tdiv 64) - y).toNat ≤ n) (hm : ((yoff + psize.tdiv 64) - y).toNat ≤ m) :
    drawpalette_rows putc psize dimx n y s = drawpalette_rows putc psize dimx m y s := by
  induction n generalizing m y s with
  | zero =>
    cases m with
    | zero => rfl
    | succ m =>
      have : ¬ y < yoff + psize.tdiv 64 := by omega
      simp only [drawpalette_rows, if_neg this]
  | succ n ih =>
    cases m with
    | zero =>
      have : ¬ y < yoff + psize.tdiv 64 := by omega
      simp only [drawpalette_rows, if_neg this]
    | succ m =>
      simp only [drawpalette_rows]
      split_ifs with h1
      · exact ih m (y + 1) _ (by omega) (by omega)
      · rfl

/-- The iteration bounds inside `drawpalette` are never what stops its loops:
    any larger bound for the outer loop gives the same surface. -/
theorem drawpalette_fuel {S : Type} (putc : S → Int → Int → Int → S)
    (palette_size dimx : Int) (s : S) (n : Nat) (hx : ¬ dimx < 64)
    (hn : ((if palette_size > 256 then 256 else palette_size).tdiv 64).toNat ≤ n) :
    (drawpalette putc palette_size dimx s).2
      = drawpalette_rows putc (if palette_size > 256 then 256 else palette_size) dimx n yoff s := by
  unfold drawpalette
  simp only [if_neg hx]
  apply rows_fuel
  · simp only [yoff]; omega
  · simp only [yoff]; omega

/-! ## How many swatches are written -/

/-- A row whose last index is below `psize` never takes the `break`: the
    inner loop writes one swatch per iteration up to its column bound. -/
theorem row_length (psize dimx y : Int) (n : Nat) (x : Int) (s : List Swatch)
    (hfull : (y - yoff) * 64 + ((dimx.tdiv 2 + 32) - 1 - (dimx - 64).tdiv 2) < psize) :
    (drawpalette_row logSwatch psize dimx y n x s).length
      = s.length + min n ((dimx.tdiv 2 + 32) - x).toNat := by
  induction n generalizing x s with
  | zero => simp [drawpalette_row]
  | succ n ih =>
    simp only [drawpalette_row]
    split_ifs with h1 h2
    · omega
    · rw [ih]
      simp only [logSwatch, List.length_append, List.length_singleton]
      omega
    · omega

/-- Every row the outer loop enters is a full row of 64 swatches. -/
theorem rows_length (psize dimx : Int) (n : Nat) (y : Int) (s : List Swatch)
    (hy : yoff ≤ y) (hp : 0 ≤ psize) (hspan : (dimx.tdiv 2 + 32) - (dimx - 64).tdiv 2 = 64) :
    (drawpalette_rows logSwatch psize dimx n y s).length
      = s.length + 64 * min n ((yoff + psize.tdiv 64) - y).toNat := by
  induction n generalizing y s with
  | zero => simp [drawpalette_rows]
  | succ n ih =>
    simp only [drawpalette_rows]
    have e : psize.tdiv 64 = psize / 64 := Int.tdiv_eq_ediv hp (by omega)
    split_ifs with h1
    · rw [ih _ _ (by omega), row_length]
      · rw [hspan]
        omega
      · simp only [yoff] at h1 hy ⊢
        omega
    · omega

/-- On a terminal of at least 64 columns `drawpalette` writes only whole rows:
    `64 * (psize / 64)` swatches, `psize` being the palette size capped at 256. -/
theorem swatches_length (p dimx : Int) (hp : 0 ≤ p) (hx : 64 ≤ dimx) :
    ((swatches p dimx).length : Int) = 64 * (min p 256 / 64) := by
  have e1 : (dimx - 64).tdiv 2 = (dimx - 64) / 2 := Int.tdiv_eq_ediv (by omega) (by omega)
  have e2 : dimx.tdiv 2 = dimx / 2 := Int.tdiv_eq_ediv (by omega) (by omega)
  unfold swatches drawpalette
  simp only [if_neg (show ¬ dimx < 64 by omega)]
  have hps : (if p > 256 then 256 else p) = min p 256 := by split_ifs <;> omega
  rw [hps, rows_length _ _ _ _ _ (le_refl _) (by omega) (by omega)]
  have e3 : (min p 256).tdiv 64 = min p 256 / 64 := Int.tdiv_eq_ediv (by omega) (by omega)
  rw [e3]
  simp only [yoff, List.length_nil]
  omega

/-! ## Further facts on call lists -/

/-- Counting a stage entry in a call list is counting it among the stage
    entries. -/
theorem count_stages (c : Call) (tr : List Call)
    (hc : c = Call.display ∨ c = Call.infoplane ∨ c = Call.drawpalette
            ∨ c = Call.notcurses_render) :
    tr.count c = (stages tr).count c := by
  unfold stages
  rw [List.count_filter]
  simpa using hc

/-- A successful run ends with the flush. -/
theorem ncneofetch_success_last (env : Env) (h : (ncneofetch env).1 = 0) :
    ∃ tr, (ncneofetch env).2 = tr ++ [Call.notcurses_render] := by
  unfold ncneofetch at h ⊢
  split at h
  · simp at h
  · simp only at h ⊢
    split_ifs at h ⊢ <;> first | exact ⟨_, rfl⟩ | simp at h

/-- The calls made by `display` are no swatch writes. -/
theorem display_no_putc (env : Env) (dinfo : distro_info) (tr : List Call) (y x idx : Int)
    (h : Call.ncplane_putc_yx y x idx ∉ tr) :
    Call.ncplane_putc_yx y x idx ∉ (display env dinfo tr).2 := by
  unfold display
  split
  · split_ifs <;> simp [h]
  · exact h

/-- The calls made by `infoplane` are no swatch writes. -/
theorem infoplane_no_putc (env : Env) (tr : List Call) (y x idx : Int)
    (h : Call.ncplane_putc_yx y x idx ∉ tr) :
    Call.ncplane_putc_yx y x idx ∉ (infoplane env tr).2 := by
  unfold infoplane
  simp only
  split_ifs <;> simp [h]

/-! ## The claims -/

/-- Claim C1: for pixel sizes `y, x >= 0` and blitter scales `>= 1`, the
    offsets `display` leaves in `vopts.y` and `vopts.x` are the specified
    centering offsets: with `c` the ceiling of pixels over scale,
    `floor((dim - c) / 2)` when `c < dim` and `0` otherwise, for every terminal
    dimension.  The guard on the truncated quotient and the guard on the
    ceiling never disagree. -/
theorem display_offset_centered (dimy dimx y x scaley scalex : Int)
    (hy : 0 ≤ y) (hx : 0 ≤ x) (hsy : 1 ≤ scaley) (hsx : 1 ≤ scalex) :
    (display_vopts dimy dimx y x scaley scalex).y = spec_offset (spec_cells y scaley) dimy
    ∧ (display_vopts dimy dimx y x scaley scalex).x = spec_offset (spec_cells x scalex) dimx := by
  have ey := axis_offset y scaley dimy hy hsy
  have ex := axis_offset x scalex dimx hx hsx
  unfold display_vopts
  constructor
  · rw [← ey]; split_ifs <;> rfl
  · rw [← ex]; split_ifs <;> rfl

/-- Scenario A: terminal 120x40, image 512x512 px, cell 8x16 px: footprint
    64x32, offsets x = 28 and y = 4. -/
theorem display_offset_centered_witness :
    display_vopts 40 120 512 512 16 8 = ⟨4, 28⟩
    ∧ (512 + (16 - 1) : Int).tdiv 16 = 32 ∧ (512 + (8 - 1) : Int).tdiv 8 = 64
    ∧ (display_vopts 40 120 512 512 16 8).y = spec_offset (spec_cells 512 16) 40
    ∧ (display_vopts 40 120 512 512 16 8).x = spec_offset (spec_cells 512 8) 120 :=
  ⟨by decide, by decide, by decide,
   display_offset_centered 40 120 512 512 16 8 (by decide) (by decide) (by decide) (by decide)⟩

/-- Claim C2, at its failing inputs: a Debian host whose logo cannot be
    decoded, and one whose blit fails.  `display` returns `NULL`, which is also
    the `0` of its success path, so `ncneofetch` goes on to `infoplane`,
    `drawpalette` and `notcurses_render` and returns `0`. -/
theorem logo_failure_does_not_abort :
    ncneofetch_distro env_decode_fails = some debian
    ∧ debian.logofile ≠ none
    ∧ env_decode_fails.ncvisual_from_file = NULL
    ∧ display env_decode_fails debian [Call.display]
        = (0, [Call.display,
               Call.ncvisual_from_file "/usr/share/desktop-base/debian-logos/logo-text-256.png"])
    ∧ (ncneofetch env_decode_fails).1 = 0
    ∧ Call.infoplane ∈ (ncneofetch env_decode_fails).2
    ∧ Call.drawpalette ∈ (ncneofetch env_decode_fails).2
    ∧ Call.notcurses_render ∈ (ncneofetch env_decode_fails).2
    ∧ ncneofetch_distro env_blit_fails = some debian
    ∧ env_blit_fails.ncvisual_from_file ≠ NULL
    ∧ env_blit_fails.ncvisual_render = NULL
    ∧ (display env_blit_fails debian [Call.display]).1 = 0
    ∧ (ncneofetch env_blit_fails).1 = 0
    ∧ Call.infoplane ∈ (ncneofetch env_blit_fails).2
    ∧ Call.drawpalette ∈ (ncneofetch env_blit_fails).2
    ∧ Call.notcurses_render ∈ (ncneofetch env_blit_fails).2 := by
  decide

/-- Claim C3, at its failing input (palette depth 200, 120 columns):
    `drawpalette` writes 192 swatches in rows 2, 3 and 4; nothing is written on
    row 5 (row index 3) and no index from 192 up is written. -/
theorem drawpalette_200_drops_last_row :
    (drawpalette logSwatch 200 120 []).1 = 0
    ∧ (swatches 200 120).length = 192
    ∧ ((swatches 200 120).map (fun w => w.y)).dedup = [2, 3, 4]
    ∧ ((swatches 200 120).filter (fun w => w.y = 5)).length = 0
    ∧ ((swatches 200 120).filter (fun w => 192 ≤ w.idx)).length = 0 := by
  decide

/-- Claim C4 as stated fails on a 50x24 terminal: with `display`, `infoplane`
    and `notcurses_render` all succeeding, `drawpalette` returns `-1`, and
    `ncneofetch` returns `-1` without calling `notcurses_render`. -/
theorem narrow_terminal_aborts_frame :
    env_narrow.dimx = 50 ∧ env_narrow.dimy = 24
    ∧ ncneofetch_distro env_narrow = some debian
    ∧ (display env_narrow debian [Call.display]).1 = NULL
    ∧ (infoplane env_narrow []).1 = 0
    ∧ env_narrow.notcurses_render = 0
    ∧ (drawpalette logCall env_narrow.palette_size env_narrow.dimx []).1 = -1
    ∧ (ncneofetch env_narrow).1 = -1
    ∧ Call.drawpalette ∈ (ncneofetch env_narrow).2
    ∧ Call.notcurses_render ∉ (ncneofetch env_narrow).2 := by
  decide

/-- Claim C4, amended: on a terminal of fewer than 64 columns `drawpalette`
    returns `-1` without drawing: whatever a swatch write would do, the surface
    is left exactly as it was.  `ncneofetch` treats that status as a failure:
    it returns `-1`, never calls `notcurses_render`, and its run contains no
    `ncplane_putc_yx` call. -/
theorem narrow_terminal_fails (env : Env) (h : env.dimx < 64) :
    (∀ (S : Type) (putc : S → Int → Int → Int → S) (s : S),
        drawpalette putc env.palette_size env.dimx s = (-1, s))
    ∧ (ncneofetch env).1 = -1
    ∧ Call.notcurses_render ∉ (ncneofetch env).2
    ∧ (∀ y x idx, Call.ncplane_putc_yx y x idx ∉ (ncneofetch env).2) := by
  have hdraw : ∀ (S : Type) (putc : S → Int → Int → Int → S) (s : S),
      drawpalette putc env.palette_size env.dimx s = (-1, s) := by
    intro S putc s
    unfold drawpalette
    simp only [if_pos h]
  refine ⟨hdraw, ?_, ?_, ?_⟩
  · rcases ncneofetch_runs env with ⟨_, h0⟩ | ⟨_, ⟨_, h1, _⟩ | ⟨_, _, h1, _⟩ | ⟨_, hx, _⟩ | ⟨_, hx, _⟩⟩
    · rw [h0]
    · exact h1
    · exact h1
    · exact absurd h hx
    · exact absurd h hx
  · rw [mem_stages Call.notcurses_render _ (by simp)]
    rcases ncneofetch_runs env with ⟨_, h0⟩ | ⟨_, ⟨_, _, h2⟩ | ⟨_, _, _, h2⟩ | ⟨_, hx, _⟩ | ⟨_, hx, _⟩⟩
    · rw [h0]; simp [stages]
    · rw [h2]; simp
    · rw [h2]; simp
    · exact absurd h hx
    · exact absurd h hx
  · intro y x idx
    have hd : ∀ dinfo, Call.ncplane_putc_yx y x idx ∉ (display env dinfo [Call.display]).2 :=
      fun dinfo => display_no_putc env dinfo _ y x idx (by simp)
    have hi : ∀ dinfo, Call.ncplane_putc_yx y x idx
        ∉ (infoplane env ((display env dinfo [Call.display]).2 ++ [Call.infoplane])).2 :=
      fun dinfo => infoplane_no_putc env _ y x idx (by simp [hd dinfo])
    unfold ncneofetch
    split
    · simp
    · rename_i dinfo _
      simp only [hdraw]
      split_ifs with a b c e
      · exact hd dinfo
      · exact hi dinfo
      · simp [hi dinfo]
      · simp at c
      · simp at c

/-- The amended claim C4 on the 50x24 terminal. -/
theorem narrow_terminal_fails_witness :
    env_narrow.dimx < 64
    ∧ (∀ (S : Type) (putc : S → Int → Int → Int → S) (s : S),
        drawpalette putc env_narrow.palette_size env_narrow.dimx s = (-1, s))
    ∧ (ncneofetch env_narrow).1 = -1
    ∧ Call.notcurses_render ∉ (ncneofetch env_narrow).2
    ∧ (∀ y x idx, Call.ncplane_putc_yx y x idx ∉ (ncneofetch env_narrow).2) :=
  ⟨by decide, narrow_terminal_fails env_narrow (by decide)⟩

/-- Claim C5: on a terminal of fewer than 64 columns, whatever the palette
    depth and whatever a swatch write would do, `drawpalette` returns `-1` and
    leaves the surface exactly as it was. -/
theorem drawpalette_narrow {S : Type} (putc : S → Int → Int → Int → S)
    (palette_size dimx : Int) (s : S) (h : dimx < 64) :
    drawpalette putc palette_size dimx s = (-1, s) := by
  unfold drawpalette
  simp only [if_pos h]

/-- Claim C5 on a 50-column terminal with a non-empty surface. -/
theorem drawpalette_narrow_witness :
    (50 : Int) < 64 ∧ drawpalette logSwatch 256 50 [⟨7, 7, 7⟩] = (-1, [⟨7, 7, 7⟩]) :=
  ⟨by decide, drawpalette_narrow logSwatch 256 50 [⟨7, 7, 7⟩] (by decide)⟩

/-- Claim C6: on a terminal of `dimx >= 64` columns, with
    `xoff = (dimx - 64) / 2`: the inner loop's bounds span exactly 64 columns
    inside `[0, dimx)`; every swatch written lies on a row `>= 2`, in a column
    of `xoff .. xoff + 63`, with palette index `(y - 2) * 64 + (x - xoff)`,
    which is non-negative and below `min p 256`; and two swatches with the same
    index are the same cell. -/
theorem drawpalette_layout (p dimx : Int) (hx : 64 ≤ dimx) :
    ((dimx.tdiv 2 + 32) - (dimx - 64).tdiv 2 = 64
      ∧ (dimx - 64).tdiv 2 = (dimx - 64) / 2
      ∧ 0 ≤ (dimx - 64).tdiv 2 ∧ dimx.tdiv 2 + 32 ≤ dimx)
    ∧ (∀ w ∈ swatches p dimx,
        2 ≤ w.y
        ∧ (dimx - 64) / 2 ≤ w.x ∧ w.x ≤ (dimx - 64) / 2 + 63
        ∧ 0 ≤ w.x ∧ w.x < dimx
        ∧ w.idx = (w.y - 2) * 64 + (w.x - (dimx - 64) / 2)
        ∧ 0 ≤ w.idx ∧ w.idx < min p 256)
    ∧ (∀ w1 ∈ swatches p dimx, ∀ w2 ∈ swatches p dimx,
        w1.idx = w2.idx → w1.y = w2.y ∧ w1.x = w2.x) := by
  have e1 : (dimx - 64).tdiv 2 = (dimx - 64) / 2 := Int.tdiv_eq_ediv (by omega) (by omega)
  have e2 : dimx.tdiv 2 = dimx / 2 := Int.tdiv_eq_ediv (by omega) (by omega)
  have key : ∀ w ∈ swatches p dimx,
      2 ≤ w.y
        ∧ (dimx - 64) / 2 ≤ w.x ∧ w.x ≤ (dimx - 64) / 2 + 63
        ∧ 0 ≤ w.x ∧ w.x < dimx
        ∧ w.idx = (w.y - 2) * 64 + (w.x - (dimx - 64) / 2)
        ∧ 0 ≤ w.idx ∧ w.idx < min p 256 := by
    intro w hw
    unfold swatches drawpalette at hw
    simp only [if_neg (show ¬ dimx < 64 by omega)] at hw
    rcases rows_mem _ _ _ _ _ _ hw with h | ⟨a, _, c, d, e, f⟩
    · simp at h
    · rw [e1] at c e
      rw [e2] at d
      simp only [yoff] at a e
      have hf : w.idx < min p 256 := by
        split_ifs at f <;> omega
      refine ⟨a, c, by omega, by omega, by omega, e, by omega, hf⟩
  refine ⟨⟨by omega, e1, by omega, by omega⟩, key, ?_⟩
  intro w1 h1 w2 h2 heq
  have k1 := key w1 h1
  have k2 := key w2 h2
  omega

/-- Claim C6 on a 120-column terminal with 256 colours, where the swatch of
    index 66 is written at row 3, column 30. -/
theorem drawpalette_layout_witness :
    (64 : Int) ≤ 120
    ∧ (⟨3, 30, 66⟩ : Swatch) ∈ swatches 256 120
    ∧ (((120 : Int).tdiv 2 + 32) - ((120 : Int) - 64).tdiv 2 = 64
      ∧ ((120 : Int) - 64).tdiv 2 = (120 - 64) / 2
      ∧ 0 ≤ ((120 : Int) - 64).tdiv 2 ∧ (120 : Int).tdiv 2 + 32 ≤ 120)
    ∧ (∀ w ∈ swatches 256 120,
        2 ≤ w.y
        ∧ (120 - 64) / 2 ≤ w.x ∧ w.x ≤ (120 - 64) / 2 + 63
        ∧ 0 ≤ w.x ∧ w.x < 120
        ∧ w.idx = (w.y - 2) * 64 + (w.x - (120 - 64) / 2)
        ∧ 0 ≤ w.idx ∧ w.idx < min 256 256)
    ∧ (∀ w1 ∈ swatches 256 120, ∀ w2 ∈ swatches 256 120,
        w1.idx = w2.idx → w1.y = w2.y ∧ w1.x = w2.x) :=
  ⟨by decide, by decide, drawpalette_layout 256 120 (by decide)⟩

/-- Claim C7, at its failing input: the row-1 left print fails and every
    other call succeeds, yet `infoplane` returns `0` and `ncneofetch` returns
    `0`; likewise when all seven unchecked calls fail.  The four checked calls
    (plane allocation, box cells, perimeter, row-0 print) do give `-1`. -/
theorem unchecked_print_failure_is_dropped :
    Call.ncplane_printf_aligned 1 .NCALIGN_LEFT (-1) ∈ (infoplane env_print_fails []).2
    ∧ (infoplane env_print_fails []).1 = 0
    ∧ (ncneofetch env_print_fails).1 = 0
    ∧ (infoplane { env_ok with ip := ip_unchecked_fail } []).1 = 0
    ∧ (infoplane { env_ok with ip := { ip_ok with ncplane_aligned := NULL } } []).1 = -1
    ∧ (infoplane { env_ok with ip := { ip_ok with cells_rounded_box := -1 } } []).1 = -1
    ∧ (infoplane { env_ok with ip := { ip_ok with ncplane_perimeter := -1 } } []).1 = -1
    ∧ (infoplane { env_ok with ip := { ip_ok with printf_row0 := -1 } } []).1 = -1 := by
  decide

/-- Claim C8: in `ncneofetch` the stage entries form an initial segment of
    display, infoplane, drawpalette, notcurses_render; a stage is entered only
    if every earlier stage returned its success value; a non-zero result of
    infoplane, drawpalette or notcurses_render stops the sequence with `-1`; and
    a return of `0` comes after exactly one `notcurses_render`, which returned
    `0` and is the last call. -/
theorem ncneofetch_stage_order (env : Env) :
    stages (ncneofetch env).2
        <+: [Call.display, Call.infoplane, Call.drawpalette, Call.notcurses_render]
    ∧ (∀ distro, ncneofetch_distro env = some distro →
        (Call.infoplane ∈ (ncneofetch env).2 → ∀ tr, (display env distro tr).1 = NULL)
        ∧ (Call.drawpalette ∈ (ncneofetch env).2 →
            ∀ tr, (display env distro tr).1 = NULL ∧ (infoplane env tr).1 = 0)
        ∧ (Call.notcurses_render ∈ (ncneofetch env).2 →
            ∀ tr, (display env distro tr).1 = NULL ∧ (infoplane env tr).1 = 0
                  ∧ (drawpalette logCall env.palette_size env.dimx tr).1 = 0))
    ∧ ((∃ tr, (infoplane env tr).1 ≠ 0) →
        Call.drawpalette ∉ (ncneofetch env).2 ∧ Call.notcurses_render ∉ (ncneofetch env).2
        ∧ (ncneofetch env).1 = -1)
    ∧ ((∃ tr, (drawpalette logCall env.palette_size env.dimx tr).1 ≠ 0) →
        Call.notcurses_render ∉ (ncneofetch env).2 ∧ (ncneofetch env).1 = -1)
    ∧ (env.notcurses_render ≠ 0 → (ncneofetch env).1 = -1)
    ∧ ((ncneofetch env).1 = 0 →
        (ncneofetch env).2.count Call.notcurses_render = 1 ∧ env.notcurses_render = 0
        ∧ ∃ tr, (ncneofetch env).2 = tr ++ [Call.notcurses_render]) := by
  have hlast := ncneofetch_success_last env
  rw [mem_stages Call.infoplane _ (by simp), mem_stages Call.drawpalette _ (by simp),
      mem_stages Call.notcurses_render _ (by simp),
      count_stages Call.notcurses_render _ (by simp)]
  have hi : ∀ tr, (infoplane env tr).1 = (infoplane env []).1 := infoplane_fst env
  have hp : ∀ tr, (drawpalette logCall env.palette_size env.dimx tr).1
      = if env.dimx < 64 then -1 else 0 := fun tr => drawpalette_fst _ _ _ tr
  simp only [hi, hp, display_fst]
  rcases ncneofetch_runs env with ⟨_, h0⟩ | ⟨_, ⟨hi0, h1, h2⟩ | ⟨hi0, hx, h1, h2⟩ |
      ⟨hi0, hx, hr, h1, h2⟩ | ⟨hi0, hx, hr, h1, h2⟩⟩
  · rw [h0]
    simp [stages]
  · rw [h2, h1]
    simp [hi0]
  · rw [h2, h1]
    simp [hi0, hx]
  · rw [h2, h1]
    simp [hi0, hx, hr]
  · rw [h2]
    simp [hi0, hx, hr]
    exact hlast

/-- Claim C8 on the run `env_ok`: all four stages, in order, one flush. -/
theorem ncneofetch_stage_order_witness :
    (ncneofetch env_ok).1 = 0
    ∧ stages (ncneofetch env_ok).2
        = [Call.display, Call.infoplane, Call.drawpalette, Call.notcurses_render]
    ∧ (ncneofetch env_ok).2.count Call.notcurses_render = 1 :=
  ⟨by decide, by decide, ((ncneofetch_stage_order env_ok).2.2.2.2.2 (by decide)).1⟩

/-- Claim C9 as stated fails: a zero-size image on a 120x40 terminal gets
    offsets y = 20 and x = 60, not 0. -/
theorem zero_image_offset_nonzero :
    (display_vopts 40 120 0 0 16 8).y = 20 ∧ (display_vopts 40 120 0 0 16 8).x = 60
    ∧ ¬ ((display_vopts 40 120 0 0 16 8).y = 0) ∧ ¬ ((display_vopts 40 120 0 0 16 8).x = 0) := by
  decide

/-- Claim C9, amended: for an axis of pixel size 0, scale `s >= 1` and
    terminal dimension `d >= 0`, the cell footprint `(0 + s - 1) / s` is 0 and
    the offset `display` leaves is `floor(d / 2)`: the empty image is centred. -/
theorem zero_image_geometry (s d other_dim other_px other_scale : Int)
    (hs : 1 ≤ s) (hd : 0 ≤ d) :
    (0 + (s - 1)).tdiv s = 0
    ∧ (display_vopts d other_dim 0 other_px s other_scale).y = d / 2
    ∧ (display_vopts other_dim d other_px 0 other_scale s).x = d / 2 := by
  have h0 : (0 + (s - 1)).tdiv s = 0 := by
    rw [Int.tdiv_eq_ediv (by omega) (by omega)]
    exact Int.ediv_eq_zero_of_lt (by omega) (by omega)
  have hq : (0 : Int).tdiv s = 0 := by simp
  have hh : (d - 0).tdiv 2 = d / 2 := by
    rw [Int.tdiv_eq_ediv (by omega) (by omega)]; simp
  refine ⟨h0, ?_, ?_⟩
  · unfold display_vopts
    simp only [hq, h0, hh]
    by_cases h : 0 < d
    · simp only [if_pos h]
      split_ifs <;> rfl
    · have : d = 0 := by omega
      subst this
      simp only [if_neg h]
      split_ifs <;> rfl
  · unfold display_vopts
    simp only [hq, h0, hh]
    by_cases h : 0 < d
    · simp only [if_pos h]
    · have : d = 0 := by omega
      subst this
      simp only [if_neg h]
      split_ifs <;> rfl

/-- The amended claim C9 at scale 16 on a dimension of 40. -/
theorem zero_image_geometry_witness :
    (0 + ((16 : Int) - 1)).tdiv 16 = 0
    ∧ (display_vopts 40 120 0 512 16 8).y = (40 : Int) / 2
    ∧ (display_vopts 120 40 512 0 8 16).x = (40 : Int) / 2 :=
  zero_image_geometry 16 40 120 512 8 (by decide) (by decide)

end Fetch
